import Mathlib

/-!
Verification of the run-evaluation pipeline of the hackathon grading service.

The definitions below are a shallow embedding of the Python sources:
`src/common/utils.py` (normalization and macro-F1 scoring),
`src/api/app.py` (dispatch publisher, run start, leaderboard),
`src/functions/predict_worker/main.py` (sample worker and eager finalizer) and
`src/functions/run_finalizer/main.py` (reaper).  Python floats are modelled as
rationals, database rows as Lean structures, and the distributed system as an
explicit transition system on a run state.
-/

/-- A canonical span: the dict with keys start, end and label
produced by the normalizer (src/common/utils.py). The field for the
Python key end is written endPos because end is a Lean keyword. -/
structure Span where
  start : Int
  endPos : Int
  label : String
deriving DecidableEq, Repr

namespace Hack

/-- Pairs (start, end) of the spans of a given label in one sample, as the
Python set comprehension in f1_macro (utils.py lines 72-73) builds them. -/
def pairsOf (spans : List Span) (l : String) : Finset (Int × Int) :=
  ((spans.filter (fun s => s.label = l)).map (fun s => (s.start, s.endPos))).toFinset

/-- Labels occurring anywhere in the gold data (utils.py lines 62-65). -/
def labelsOf (samples : List (List Span × List Span)) : Finset String :=
  ((samples.map (fun gp => gp.1.map (fun s => s.label))).flatten).toFinset

/-- Per-label F1 over all samples (utils.py lines 70-80): TP, FP, FN summed
over samples with exact (start, end) matching; P is the precision and R the
recall of the source, each 0 when its denominator is 0 (recall is a Mathlib
command keyword, hence the short names). -/
def perLabelF1 (samples : List (List Span × List Span)) (l : String) : ℚ :=
  let TP : ℚ := (samples.map (fun gp => (((pairsOf gp.1 l) ∩ (pairsOf gp.2 l)).card : ℚ))).sum
  let FP : ℚ := (samples.map (fun gp => (((pairsOf gp.2 l) \ (pairsOf gp.1 l)).card : ℚ))).sum
  let FN : ℚ := (samples.map (fun gp => (((pairsOf gp.1 l) \ (pairsOf gp.2 l)).card : ℚ))).sum
  let P : ℚ := if TP + FP = 0 then 0 else TP / (TP + FP)
  let R : ℚ := if TP + FN = 0 then 0 else TP / (TP + FN)
  if P + R = 0 then 0 else 2 * P * R / (P + R)

/-- Macro F1 (utils.py lines 61-81): unweighted mean of per-label F1 over the
labels observed in gold; 0 when no labels exist in gold. -/
def f1_macro (samples : List (List Span × List Span)) : ℚ :=
  if labelsOf samples = ∅ then 0
  else (∑ l ∈ labelsOf samples, perLabelF1 samples l) / (labelsOf samples).card


/-- A Python value, as the normalizer may receive one from `resp.json()` or
from `ast.literal_eval`: None, bool, int, float (modelled as a rational),
str, list, tuple, or dict.  Dict keys are modelled as strings; the code
only ever looks up string keys, so a non-string key behaves like an
absent one. -/
inductive PyVal where
  | pynone
  | pybool (b : Bool)
  | pyint (n : Int)
  | pyfloat (q : ℚ)
  | pystr (s : String)
  | pylist (xs : List PyVal)
  | pytuple (xs : List PyVal)
  | pydict (entries : List (String × PyVal))

/-- Python's int() builtin on a value: succeeds on ints, bools, floats
(truncation toward zero) and integer-literal strings, raises otherwise. -/
def pyInt : PyVal → Except Unit Int
  | .pyint n => .ok n
  | .pybool b => .ok (if b then 1 else 0)
  | .pyfloat q => .ok (q.num / (q.den : Int))
  | .pystr s => match s.toInt? with
      | some n => .ok n
      | Option.none => .error ()
  | _ => .error ()

mutual

/-- Python's str() builtin: total; the rendering of containers is only
sketched, no claim depends on it. -/
def pyStr : PyVal → String
  | .pynone => "None"
  | .pybool true => "True"
  | .pybool false => "False"
  | .pyint n => toString n
  | .pyfloat q => toString q
  | .pystr s => s
  | .pylist xs => "[" ++ String.intercalate ", " (pyStrList xs) ++ "]"
  | .pytuple xs => "(" ++ String.intercalate ", " (pyStrList xs) ++ ")"
  | .pydict d => "dict:[" ++ String.intercalate ", " (d.map (fun kv => kv.1)) ++ "]"

def pyStrList : List PyVal → List String
  | [] => []
  | x :: xs => pyStr x :: pyStrList xs

end

/-- Python truthiness, used by the `or []` on the spans value. -/
def pyTruthy : PyVal → Bool
  | .pynone => false
  | .pybool b => b
  | .pyint n => n ≠ 0
  | .pyfloat q => q ≠ 0
  | .pystr s => s ≠ ""
  | .pylist xs => ¬xs.isEmpty
  | .pytuple xs => ¬xs.isEmpty
  | .pydict d => ¬d.isEmpty

/-- Python iteration (`for it in v`): lists and tuples yield their elements,
strings their characters, dicts their keys; other values raise TypeError. -/
def pyIter : PyVal → Except Unit (List PyVal)
  | .pylist xs => .ok xs
  | .pytuple xs => .ok xs
  | .pystr s => .ok (s.data.map (fun c => .pystr (String.singleton c)))
  | .pydict d => .ok (d.map (fun kv => .pystr kv.1))
  | _ => .error ()

/-- One item of the spans shape (utils.py lines 19-20 and 35-36): a dict
holding the keys start_index, end_index and entity becomes a span via
int()/str() coercions (which may raise); any other dict is skipped. -/
def dictSpanItem (d : List (String × PyVal)) : Except Unit (Option Span) :=
  if (d.lookup "start_index").isSome ∧ (d.lookup "end_index").isSome ∧ (d.lookup "entity").isSome then do
    let a ← pyInt ((d.lookup "start_index").getD .pynone)
    let b ← pyInt ((d.lookup "end_index").getD .pynone)
    .ok (some ⟨a, b, pyStr ((d.lookup "entity").getD .pynone)⟩)
  else .ok Option.none

/-- A length-3 list or tuple becomes a span via int()/int()/str()
(utils.py lines 29-30 and 37-38). -/
def tripleSpan (a b c : PyVal) : Except Unit Span := do
  let s ← pyInt a
  let e ← pyInt b
  .ok ⟨s, e, pyStr c⟩

/-- The loop of the spans branch (utils.py lines 17-21): dict items with all
three keys contribute a span, everything else is skipped. -/
def spansLoop : List PyVal → Except Unit (List Span)
  | [] => .ok []
  | it :: rest => do
      let hd ← (match it with
        | .pydict d => dictSpanItem d
        | _ => .ok Option.none)
      let tl ← spansLoop rest
      .ok (match hd with | some sp => sp :: tl | Option.none => tl)

/-- The loop of the annotation-list branch (utils.py lines 27-31): only
length-3 lists or tuples contribute, everything else is skipped. -/
def annListLoop : List PyVal → Except Unit (List Span)
  | [] => .ok []
  | t :: rest => do
      let hd ← (match t with
        | .pylist [a, b, c] => (tripleSpan a b c).map some
        | .pytuple [a, b, c] => (tripleSpan a b c).map some
        | _ => .ok Option.none)
      let tl ← annListLoop rest
      .ok (match hd with | some sp => sp :: tl | Option.none => tl)

/-- The loop of the bare-list branch (utils.py lines 33-39): dict items of
the spans shape, or length-3 lists/tuples, contribute; others are skipped. -/
def bareLoop : List PyVal → Except Unit (List Span)
  | [] => .ok []
  | it :: rest => do
      let hd ← (match it with
        | .pydict d => dictSpanItem d
        | .pylist [a, b, c] => (tripleSpan a b c).map some
        | .pytuple [a, b, c] => (tripleSpan a b c).map some
        | _ => .ok Option.none)
      let tl ← bareLoop rest
      .ok (match hd with | some sp => sp :: tl | Option.none => tl)

/-- The loop of parse_annotation_literal (utils.py lines 49-55): length-3
lists/tuples with start at least 0 and end greater than start contribute;
int() failures raise out of the loop. -/
def annLitLoop : List PyVal → Except Unit (List Span)
  | [] => .ok []
  | t :: rest => do
      let hd ← (match t with
        | .pylist [a, b, c] => (tripleSpan a b c).map some
        | .pytuple [a, b, c] => (tripleSpan a b c).map some
        | _ => .ok Option.none)
      let tl ← annLitLoop rest
      .ok (match hd with
        | some sp => if sp.start < 0 ∨ sp.endPos ≤ sp.start then tl else sp :: tl
        | Option.none => tl)

/-- Embedding of parse_annotation_literal (utils.py lines 45-58).  The
behavior of ast.literal_eval is abstracted as a parameter ev (success
yields some Python value, failure raises); the surrounding try/except turns
every failure into the empty list. -/
def parse_annotation_literal (ev : String → Except Unit PyVal) (s : String) : List Span :=
  match (do annLitLoop (← pyIter (← ev s)) : Except Unit (List Span)) with
  | .ok l => l
  | .error _ => []

/-- The body of normalize_pred before its try/except (utils.py lines 12-39,
with line 42's fallthrough): an error means a raise that line 40 catches. -/
def normCore (ev : String → Except Unit PyVal) (obj : PyVal) : Except Unit (List Span) :=
  match obj with
  | .pydict d =>
      if (d.lookup "spans").isSome then do
        -- spans = obj.get("spans") or []
        let spansV := (d.lookup "spans").getD .pynone
        let spans := if pyTruthy spansV then spansV else .pylist []
        spansLoop (← pyIter spans)
      else if (d.lookup "annotation").isSome then
        match d.lookup "annotation" with
        | some (.pystr s) => .ok (parse_annotation_literal ev s)
        | some (.pylist xs) => annListLoop xs
        | _ => .ok []  -- neither str nor list: falls through to the final return []
      else .ok []
  | .pylist xs => bareLoop xs
  | _ => .ok []  -- None, scalars and tuples reach the final return []

/-- Typed image of normalize_pred (utils.py lines 10-42): the canonical
span list it produces, with the try/except catching every raise as []. -/
def normalizeSpans (ev : String → Except Unit PyVal) (obj : PyVal) : List Span :=
  match normCore ev obj with
  | .ok l => l
  | .error _ => []

/-- A canonical span dict as normalize_pred builds them: keys start, end
and label with int/int/str values. -/
def spanToPy (sp : Span) : PyVal :=
  .pydict [("start", .pyint sp.start), ("end", .pyint sp.endPos), ("label", .pystr sp.label)]

/-- Embedding of normalize_pred itself (utils.py lines 10-42) as a function
on Python values: the returned Python list of span dicts. -/
def normalize_pred (ev : String → Except Unit PyVal) (obj : PyVal) : PyVal :=
  .pylist ((normalizeSpans ev obj).map spanToPy)

/-! The run lifecycle as a transition system.  One Run row of the database
(src/common/models.py evolved schema, as used by src/api/app.py and the
cloud functions), its Prediction rows, and the message queue between the
dispatch publisher and the sample workers. -/

/-- Lifecycle status of a run (src/common/constants.py). -/
inductive RunStatus where
  | queued
  | running
  | done
deriving DecidableEq, Repr

/-- Modelled from the spec: the sample_idx column carrying the per-run
unique sample index, which the snapshot of src/common/models.py in the
repository does not declare although predict_worker writes it; the
remaining fields are the Prediction columns of models.py as populated by
_process_message (src/functions/predict_worker/main.py lines 112-124). -/
structure PredRow where
  sample_idx : Nat
  latency_ms : Option ℚ
  ok : Bool
  gold_json : List Span
  pred_json : Option (List Span)
deriving DecidableEq

/-- One queue message as built by _publish_run_messages
(src/api/app.py lines 109-117); run id and team id are implicit because the
state tracks a single run. -/
structure Msg where
  sample_idx : Nat
  sample : String
  gold : List Span
deriving DecidableEq

/-- The observable state of one run: its Run row, its Prediction rows, and
the queue of dispatched messages.  published counts the messages emitted so
far by the publisher and pubDone records that the publisher has returned
(successfully or not). -/
structure SysState where
  status : RunStatus
  samples_total : Nat
  samples_processed : Nat
  samples_success : Nat
  f1 : Option ℚ
  avg_latency_ms : Option ℚ
  started_at : ℚ
  finished_at : Option ℚ
  predictions : List PredRow
  queue : List Msg
  published : Nat
  pubDone : Bool
deriving DecidableEq

/-- The run as start_run creates it before dispatch (src/api/app.py lines
418-429): status RUNNING, started_at stamped, all counters 0. -/
def initState (t0 : ℚ) : SysState where
  status := .running
  samples_total := 0
  samples_processed := 0
  samples_success := 0
  f1 := Option.none
  avg_latency_ms := Option.none
  started_at := t0
  finished_at := Option.none
  predictions := []
  queue := []
  published := 0
  pubDone := false

/-- One iteration of the publisher loop (src/api/app.py lines 102-124): the
next dataset row is parsed with parse_annotation_literal and enqueued with
the next sample index.  No further message is sent once the publisher has
returned. -/
def enqueueStep (ev : String → Except Unit PyVal) (sample goldLit : String) (s : SysState) : SysState :=
  if s.pubDone then s
  else { s with
    queue := s.queue ++ [⟨s.published, sample, parse_annotation_literal ev goldLit⟩]
    published := s.published + 1 }

/-- Successful return of _publish_run_messages, after which start_run
commits samples_total := the number of messages enqueued
(src/api/app.py lines 440-443). -/
def publishOkStep (s : SysState) : SysState :=
  if s.pubDone then s
  else { s with pubDone := true, samples_total := s.published }

/-- The except branch of start_run (src/api/app.py lines 431-438): the
publisher raised, the run reverts to QUEUED, samples_total is untouched. -/
def publishFailStep (s : SysState) : SysState :=
  if s.pubDone then s
  else { s with pubDone := true, status := .queued }

/-- Outcome of the HTTP exchange of one worker invocation: either
client.post raised (timeout or transport error), or a response arrived with
a status code and either a parsed JSON body or a resp.json() failure. -/
inductive HttpResult where
  | exn
  | resp (lat : ℚ) (status : Nat) (body : Option PyVal)

/-- What one call records, per _process_message lines 96-110 of
src/functions/predict_worker/main.py: latency is stamped as soon as a
response arrives (before the status check), ok and the normalized
prediction only on a 200 whose body parses as JSON. -/
structure Outcome where
  latency_ms : Option ℚ
  ok : Bool
  pred_json : Option (List Span)
deriving DecidableEq

/-- Computes the (latency_ms, ok, pred_json) triple of _process_message
(predict_worker lines 96-110) from the HTTP outcome. -/
def sampleOutcome (ev : String → Except Unit PyVal) : HttpResult → Outcome
  | .exn => ⟨Option.none, false, Option.none⟩
  | .resp lat status body =>
      if status = 200 then
        match body with
        | some v => ⟨some lat, true, some (normalizeSpans ev v)⟩
        | Option.none => ⟨some lat, false, Option.none⟩
      else ⟨some lat, false, Option.none⟩

/-- Modelled from the spec: the uniqueness constraint on
(run id, sample index) that makes the duplicate insert of predict_worker
lines 122-138 fail with IntegrityError; the snapshot of
src/common/models.py in the repository does not declare the constrained
column.  This predicate holds when a Prediction row for the sample index
already exists. -/
def hasIdx (preds : List PredRow) (i : Nat) : Bool :=
  preds.any (fun p => p.sample_idx == i)

/-- The single worker transaction of _process_message (predict_worker lines
112-138): insert the Prediction row and increment samples_processed (and,
when ok, samples_success); a duplicate sample index violates the uniqueness
constraint, the IntegrityError is swallowed and the transaction leaves no
change. -/
def processMessage (ev : String → Except Unit PyVal) (m : Msg) (r : HttpResult) (s : SysState) : SysState :=
  let o := sampleOutcome ev r
  if hasIdx s.predictions m.sample_idx then s
  else { s with
    predictions := s.predictions ++ [⟨m.sample_idx, o.latency_ms, o.ok, m.gold, o.pred_json⟩]
    samples_processed := s.samples_processed + 1
    samples_success := s.samples_success + (if o.ok then 1 else 0) }

/-- The metric aggregation shared verbatim by _maybe_finalize
(predict_worker lines 59-77) and _finalize_runs (run_finalizer lines
49-70): avg_latency_ms is the mean of the non-null latencies (none when
there are none) and f1 is f1_macro over the (gold, pred or []) pairs, or
0.0 when there are no Prediction rows. -/
def computeMetrics (preds : List PredRow) : Option ℚ × ℚ :=
  let latencies := preds.filterMap (fun p => p.latency_ms)
  let pairs := preds.map (fun p => (p.gold_json, p.pred_json.getD []))
  ((if latencies.isEmpty then Option.none else some (latencies.sum / latencies.length)),
   (if pairs.isEmpty then 0 else f1_macro pairs))

/-- The eager finalizer _maybe_finalize (predict_worker lines 45-81): under
a row lock it re-checks status RUNNING and samples_total truthy with
samples_processed at least samples_total, then commits metrics,
finished_at and DONE in the same transaction; otherwise it changes
nothing. -/
def maybeFinalize (now : ℚ) (s : SysState) : SysState :=
  if s.status ≠ .running then s
  else if ¬(s.samples_total ≠ 0 ∧ s.samples_total ≤ s.samples_processed) then s
  else
    let m := computeMetrics s.predictions
    { s with avg_latency_ms := m.1, f1 := some m.2, finished_at := some now, status := .done }

/-- The write phase of the reaper, _finalize_runs (run_finalizer lines
41-74): for each selected run id it re-reads the row in a fresh session and
unconditionally commits metrics, finished_at and DONE — with no row lock
and no re-check that the run is still RUNNING. -/
def finalizeRuns (now : ℚ) (s : SysState) : SysState :=
  let m := computeMetrics s.predictions
  { s with avg_latency_ms := m.1, f1 := some m.2, finished_at := some now, status := .done }

/-- The ready-run selection of the reaper handler (run_finalizer lines
89-111): status RUNNING, samples_total positive, and the count of
Prediction rows equal to samples_total.  Elapsed time is not consulted. -/
def reaperReady (s : SysState) : Bool :=
  s.status = .running ∧ 0 < s.samples_total ∧ s.predictions.length = s.samples_total

/-- One full reaper sweep over this run (run_finalizer handler lines
77-117), with its two sessions executed back to back with nothing
interleaved: finalize when ready, otherwise leave the run alone. -/
def reaperStep (now : ℚ) (s : SysState) : SysState :=
  if reaperReady s then finalizeRuns now s else s

/-- The events that can hit a run's state: publisher iterations and
returns, a worker consuming a delivered (possibly re-delivered) message,
and the two finalization triggers. -/
inductive Action where
  | enqueue (sample goldLit : String)
  | publishOk
  | publishFail
  | worker (m : Msg) (r : HttpResult)
  | eager (now : ℚ)
  | reaper (now : ℚ)

/-- Effect of one event.  A worker can only fire on a message that has been
enqueued; the queue delivers at least once, so the message stays available
for re-delivery. -/
def stepAct (ev : String → Except Unit PyVal) : Action → SysState → SysState
  | .enqueue sample g, s => enqueueStep ev sample g s
  | .publishOk, s => publishOkStep s
  | .publishFail, s => publishFailStep s
  | .worker m r, s => if m ∈ s.queue then processMessage ev m r s else s
  | .eager t, s => maybeFinalize t s
  | .reaper t, s => reaperStep t s

/-- States reachable from a freshly created run under any interleaving of
events. -/
inductive Reachable (ev : String → Except Unit PyVal) : SysState → Prop
  | init (t0 : ℚ) : Reachable ev (initState t0)
  | step (a : Action) {s : SysState} : Reachable ev s → Reachable ev (stepAct ev a s)

/-! The leaderboard (src/api/app.py lines 493-546). -/

/-- One Run row as the leaderboard query sees it. -/
structure RunRow where
  team : String
  phase : Nat
  status : RunStatus
  f1 : Option ℚ
  avg_latency_ms : Option ℚ
deriving DecidableEq

/-- coalesce(Run.f1, 0.0) of the leaderboard query. -/
def f1c (r : RunRow) : ℚ := r.f1.getD 0

/-- coalesce(Run.avg_latency_ms, 1e9) of the leaderboard query. -/
def latc (r : RunRow) : ℚ := r.avg_latency_ms.getD 1000000000

/-- The DONE runs of the requested phase (the where clause of the subquery,
app.py line 524). -/
def rowsForPhase (pid : Nat) (runs : List RunRow) : List RunRow :=
  runs.filter (fun r => r.phase = pid ∧ r.status = .done)

/-- Strict priority of the row_number window ordering (app.py lines
512-515): higher coalesced f1 first, then lower coalesced latency. -/
def beats (b a : RunRow) : Prop :=
  f1c a < f1c b ∨ (f1c b = f1c a ∧ latc b < latc a)

instance : DecidableRel beats := fun _ _ => by unfold beats; infer_instance

/-- Fold step selecting the row_number-1 run: keep the incumbent unless the
challenger strictly beats it (ties are resolved arbitrarily by the SQL
window; here deterministically for the incumbent). -/
def pick (a b : RunRow) : RunRow := if beats b a then b else a

/-- The representative run of one team: its rn = 1 row among the phase's
DONE runs (app.py lines 517-531). -/
def repFor (rows : List RunRow) (t : String) : Option RunRow :=
  match rows.filter (fun r => r.team = t) with
  | [] => Option.none
  | r :: rs => some (rs.foldl pick r)

/-- Teams appearing among the phase's DONE runs. -/
def teamNames (rows : List RunRow) : List String :=
  (rows.map (fun r => r.team)).dedup

/-- Sort key of the final ORDER BY (app.py line 532): coalesced f1
descending, coalesced latency ascending, team name ascending, as a
lexicographic key (f1 negated to turn descending into ascending). -/
def lbKey (r : RunRow) : Lex (ℚ × Lex (ℚ × String)) :=
  toLex (-(f1c r), toLex (latc r, r.team))

/-- The final ORDER BY relation. -/
def lbLE (a b : RunRow) : Prop := lbKey a ≤ lbKey b

instance : DecidableRel lbLE := fun a b => inferInstanceAs (Decidable (lbKey a ≤ lbKey b))

instance : IsTotal RunRow lbLE := ⟨fun a b => le_total (lbKey a) (lbKey b)⟩

instance : IsTrans RunRow lbLE := ⟨fun _ _ _ h h2 => le_trans h h2⟩

/-- lbLE spelt out: f1 descending, then latency ascending, then name
ascending. -/
theorem lbLE_iff (a b : RunRow) : lbLE a b ↔
    f1c b < f1c a ∨ (f1c a = f1c b ∧ (latc a < latc b ∨ (latc a = latc b ∧ a.team ≤ b.team))) := by
  unfold lbLE lbKey
  rw [Prod.Lex.le_iff]
  constructor
  · rintro (h | ⟨h1, h2⟩)
    · exact Or.inl (by simpa using h)
    · refine Or.inr ⟨(by simpa [neg_eq_iff_eq_neg] using h1.symm : f1c b = f1c a).symm, ?_⟩
      rcases (Prod.Lex.le_iff _ _).mp h2 with h3 | ⟨h3, h4⟩
      · exact Or.inl h3
      · exact Or.inr ⟨h3, h4⟩
  · rintro (h | ⟨h1, h2⟩)
    · exact Or.inl (by simpa using h)
    · refine Or.inr ⟨by simp [h1], (Prod.Lex.le_iff _ _).mpr ?_⟩
      rcases h2 with h3 | ⟨h3, h4⟩
      · exact Or.inl h3
      · exact Or.inr ⟨h3, h4⟩

/-- The leaderboard body (app.py lines 512-534): one representative per
team, sorted by the final ORDER BY. -/
def leaderboard (pid : Nat) (runs : List RunRow) : List RunRow :=
  let rows := rowsForPhase pid runs
  List.insertionSort lbLE ((teamNames rows).filterMap (repFor rows))

/-- The response items (app.py lines 536-546): team name, latency coalesced
to 0.0, f1 coalesced to 0.0. -/
def lbItems (pid : Nat) (runs : List RunRow) : List (String × ℚ × ℚ) :=
  (leaderboard pid runs).map (fun r => (r.team, r.avg_latency_ms.getD 0, r.f1.getD 0))

/-! Theorems. -/

/-- C5: f1_macro returns the unweighted mean, over the set of labels
occurring anywhere in the gold data, of per-label F1 computed from exact
(start, end) matches with precision, recall and F1 each 0 when their
denominator is 0; gold [(0,5,PER)] against an equal prediction scores 1,
against an empty prediction scores 0, and a label-free gold scores 0
regardless of predictions. -/
theorem f1_macro_meets_spec :
    (∀ samples, labelsOf samples ≠ ∅ →
        f1_macro samples = (∑ l ∈ labelsOf samples, perLabelF1 samples l) / (labelsOf samples).card)
    ∧ (∀ samples, (∀ gp ∈ samples, gp.1 = ([] : List Span)) → f1_macro samples = 0)
    ∧ f1_macro [([⟨0, 5, "PER"⟩], [⟨0, 5, "PER"⟩])] = 1
    ∧ f1_macro [([⟨0, 5, "PER"⟩], [])] = 0
    ∧ (∀ preds, f1_macro [([], preds)] = 0) := by
  refine ⟨?_, ?_, ?_, ?_, ?_⟩
  · intro samples h
    simp [ f1_macro, h]
  · intro samples h
    have hl : labelsOf samples = ∅ := by
      simp only [labelsOf, List.toFinset_eq_empty_iff, List.flatten_eq_nil_iff]
      intro l hl
      rcases List.mem_map.mp hl with ⟨gp, hgp, rfl⟩
      simp [h gp hgp]
    simp [ f1_macro, hl]
  · norm_num [ f1_macro, perLabelF1, labelsOf, pairsOf]
  · norm_num [ f1_macro, perLabelF1, labelsOf, pairsOf]
  · intro preds
    norm_num [ f1_macro, perLabelF1, labelsOf, pairsOf]

/-- Witness for C5 at a concrete input with a nonempty label set and a
sample list whose gold spans are all empty. -/
theorem f1_macro_meets_spec_witness :
    f1_macro [([⟨0, 5, "PER"⟩], [])]
      = (∑ l ∈ labelsOf [([⟨0, 5, "PER"⟩], [])],
          perLabelF1 [([⟨0, 5, "PER"⟩], [])] l) / (labelsOf [([⟨0, 5, "PER"⟩], [])]).card
    ∧ f1_macro [(([] : List Span), ([⟨0, 5, "PER"⟩] : List Span))] = 0 := by
  constructor
  · exact f1_macro_meets_spec.1 _ (by simp [labelsOf])
  · exact f1_macro_meets_spec.2.1 _ (by simp)

/-- C9: for every input value and every behavior of ast.literal_eval,
normalize_pred returns a Python list each of whose elements is a dict with
integer start, integer end and string label; every raise inside the body is
caught and yields the empty list, and every unrecognized top-level shape
(scalars, strings, tuples, None) yields the empty list. -/
theorem normalize_pred_total_and_canonical :
    (∀ ev obj, ∃ l : List Span, normalize_pred ev obj = .pylist (l.map spanToPy))
    ∧ (∀ ev obj, normCore ev obj = .error () → normalize_pred ev obj = .pylist [])
    ∧ (∀ ev, normalize_pred ev .pynone = .pylist [])
    ∧ (∀ ev n, normalize_pred ev (.pyint n) = .pylist [])
    ∧ (∀ ev q, normalize_pred ev (.pyfloat q) = .pylist [])
    ∧ (∀ ev b, normalize_pred ev (.pybool b) = .pylist [])
    ∧ (∀ ev s, normalize_pred ev (.pystr s) = .pylist [])
    ∧ (∀ ev xs, normalize_pred ev (.pytuple xs) = .pylist [])
    ∧ (∀ ev d, d.lookup "spans" = Option.none → d.lookup "annotation" = Option.none →
        normalize_pred ev (.pydict d) = .pylist []) := by
  refine ⟨fun ev obj => ⟨normalizeSpans ev obj, rfl⟩, ?_, ?_, ?_, ?_, ?_, ?_, ?_, ?_⟩
  · intro ev obj h
    simp [normalize_pred, normalizeSpans, h]
  · intros; rfl
  · intros; rfl
  · intros; rfl
  · intros; rfl
  · intros; rfl
  · intros; rfl
  · intro ev d h1 h2
    simp [normalize_pred, normalizeSpans, normCore, h1, h2]

/-- Witness for C9: a concrete input on which the body raises (iterating an
int), so the except branch returns the empty list. -/
theorem normalize_pred_total_and_canonical_witness :
    normCore (fun _ => .error ()) (.pydict [("spans", .pyint 1)]) = .error ()
    ∧ normalize_pred (fun _ => .error ()) (.pydict [("spans", .pyint 1)]) = .pylist []
    ∧ normalize_pred (fun _ => .error ()) (.pydict [("other", .pyint 1)]) = .pylist [] :=
  ⟨rfl, normalize_pred_total_and_canonical.2.1 _ _ rfl,
    normalize_pred_total_and_canonical.2.2.2.2.2.2.2.2 _ [("other", .pyint 1)] rfl rfl⟩

/-- C10: both finalization paths write a non-null f1, equal to 0 when the
run has no Prediction rows, set avg_latency_ms to null exactly when no
Prediction has a non-null latency, and every step that moves a run to DONE
leaves it with a non-null f1. -/
theorem finalization_writes_metrics :
    ∀ now s,
      (s.status = .running → s.samples_total ≠ 0 → s.samples_total ≤ s.samples_processed →
          (maybeFinalize now s).f1 = some (computeMetrics s.predictions).2
          ∧ (s.predictions = [] → (maybeFinalize now s).f1 = some 0)
          ∧ ((maybeFinalize now s).avg_latency_ms = Option.none
              ↔ ∀ p ∈ s.predictions, p.latency_ms = Option.none))
      ∧ ((finalizeRuns now s).f1 = some (computeMetrics s.predictions).2)
      ∧ (s.predictions = [] → (finalizeRuns now s).f1 = some 0)
      ∧ ((finalizeRuns now s).avg_latency_ms = Option.none
          ↔ ∀ p ∈ s.predictions, p.latency_ms = Option.none)
      ∧ (∀ ev a, (stepAct ev a s).status = .done →
          s.status = .done ∨ (stepAct ev a s).f1 ≠ Option.none) := by
  have hmet : ∀ preds : List PredRow,
      ((computeMetrics preds).1 = Option.none ↔ ∀ p ∈ preds, p.latency_ms = Option.none)
      ∧ (preds = [] → (computeMetrics preds).2 = 0) := by
    intro preds
    refine ⟨?_, fun h => by simp [computeMetrics, h]⟩
    simp only [computeMetrics]
    by_cases h : preds.filterMap (fun p => p.latency_ms) = []
    · rw [if_pos (by simp [h])]
      exact ⟨fun _ => fun p hp => List.filterMap_eq_nil_iff.mp h p hp, fun _ => rfl⟩
    · rw [if_neg (by simpa [List.isEmpty_iff] using h)]
      exact ⟨fun hc => absurd hc (by simp),
             fun hall => absurd (List.filterMap_eq_nil_iff.mpr fun p hp => hall p hp) h⟩
  intro now s
  refine ⟨?_, ?_, ?_, ?_, ?_⟩
  · intro h1 h2 h3
    have : maybeFinalize now s =
        { s with avg_latency_ms := (computeMetrics s.predictions).1,
                 f1 := some (computeMetrics s.predictions).2,
                 finished_at := some now, status := .done } := by
      simp [maybeFinalize, h1, h2, h3]
    rw [this]
    exact ⟨rfl, fun hp => by simp [(hmet s.predictions).2 hp], (hmet s.predictions).1⟩
  · rfl
  · intro hp; simp [finalizeRuns, (hmet s.predictions).2 hp]
  · exact (hmet s.predictions).1
  · intro ev a hdone
    cases a with
    | enqueue sample g =>
        left; revert hdone; simp only [stepAct, enqueueStep]; split <;> simp_all
    | publishOk =>
        left; revert hdone; simp only [stepAct, publishOkStep]; split <;> simp_all
    | publishFail =>
        left; revert hdone; simp only [stepAct, publishFailStep]; split <;> simp_all
    | worker m r =>
        left; revert hdone; simp only [stepAct]
        split
        · simp only [processMessage]; split <;> simp_all
        · simp_all
    | eager t =>
        revert hdone; simp only [stepAct, maybeFinalize]
        split
        · intro h; exact Or.inl h
        · split
          · intro h; exact Or.inl h
          · intro _; exact Or.inr (by simp)
    | reaper t =>
        revert hdone; simp only [stepAct, reaperStep]
        split
        · intro _; exact Or.inr (by simp [finalizeRuns])
        · intro h; exact Or.inl h

/-- A run that is RUNNING with its single sample processed but no
Prediction row recorded: a concrete finalizable state. -/
def readyEmptyState : SysState where
  status := .running
  samples_total := 1
  samples_processed := 1
  samples_success := 0
  f1 := Option.none
  avg_latency_ms := Option.none
  started_at := 0
  finished_at := Option.none
  predictions := []
  queue := []
  published := 1
  pubDone := true

/-- Witness for C10 at a concrete finalizable state with no Prediction
rows: the committed f1 is some 0 and the average latency is null. -/
theorem finalization_writes_metrics_witness :
    (maybeFinalize 3 readyEmptyState).f1 = some 0
    ∧ ((maybeFinalize 3 readyEmptyState).avg_latency_ms = Option.none
        ↔ ∀ p ∈ readyEmptyState.predictions, p.latency_ms = Option.none) := by
  have h := (finalization_writes_metrics 3 readyEmptyState).1 rfl
    (by decide) (by decide)
  exact ⟨h.2.1 rfl, h.2.2⟩

/-- A run that has been RUNNING since time 0 with two samples dispatched
but only one Prediction recorded: stale from the reaper's point of view. -/
def staleRunState : SysState where
  status := .running
  samples_total := 2
  samples_processed := 1
  samples_success := 1
  f1 := Option.none
  avg_latency_ms := Option.none
  started_at := 0
  finished_at := Option.none
  predictions := [⟨0, some 5, true, [⟨0, 5, "PER"⟩], some [⟨0, 5, "PER"⟩]⟩]
  queue := []
  published := 2
  pubDone := true

/-- C3 counterexample: a run RUNNING since time 0, swept by the reaper at
time 2000 — far beyond the configured 1200-second limit — with fewer
Predictions than samples_total, is left untouched: the reaper's ready query
never consults elapsed time. -/
theorem reaper_ignores_time_limit_cex :
    reaperStep 2000 staleRunState = staleRunState
    ∧ staleRunState.status = .running
    ∧ (1200 : ℚ) < 2000 - staleRunState.started_at
    ∧ staleRunState.predictions.length < staleRunState.samples_total := by
  refine ⟨?_, rfl, by norm_num [staleRunState], by decide⟩
  rw [reaperStep, if_neg]
  simp [reaperReady, staleRunState]

/-- C3 amended: the reaper finalizes exactly the RUNNING runs with a
positive samples_total whose recorded Prediction count equals
samples_total; elapsed wall-clock time plays no role, and a run whose
Prediction count differs from its total is left unmodified no matter how
long it has been running. -/
theorem reaper_finalizes_only_complete_runs :
    ∀ now s,
      (s.predictions.length ≠ s.samples_total → reaperStep now s = s)
      ∧ (s.status ≠ .running → reaperStep now s = s)
      ∧ (reaperReady s = true →
          (reaperStep now s).status = .done
          ∧ (reaperStep now s).f1 = some (computeMetrics s.predictions).2
          ∧ (reaperStep now s).finished_at = some now)
      ∧ (reaperReady s = true ↔
          s.status = .running ∧ 0 < s.samples_total
            ∧ s.predictions.length = s.samples_total) := by
  intro now s
  refine ⟨?_, ?_, ?_, by simp [reaperReady]⟩
  · intro h
    rw [reaperStep, if_neg]
    simp [reaperReady, h]
  · intro h
    rw [reaperStep, if_neg]
    simp [reaperReady, h]
  · intro h
    rw [reaperStep, if_pos h]
    exact ⟨rfl, rfl, rfl⟩

/-- Witness for C3's amended statement at the concrete stale state and a
concrete ready state. -/
theorem reaper_finalizes_only_complete_runs_witness :
    reaperStep 2000 staleRunState = staleRunState
    ∧ (reaperStep 7 { staleRunState with samples_total := 1 }).status = .done := by
  constructor
  · exact (reaper_finalizes_only_complete_runs 2000 staleRunState).1 (by decide)
  · exact ((reaper_finalizes_only_complete_runs 7 _).2.2.1 (by decide)).1

/-- A run whose last sample has just been processed: ready for
finalization from both the eager worker's and the reaper's point of view. -/
def raceRunState : SysState where
  status := .running
  samples_total := 1
  samples_processed := 1
  samples_success := 1
  f1 := Option.none
  avg_latency_ms := Option.none
  started_at := 0
  finished_at := Option.none
  predictions := [⟨0, some 5, true, [⟨0, 5, "PER"⟩], some [⟨0, 5, "PER"⟩]⟩]
  queue := []
  published := 1
  pubDone := true

/-- C1: the claimed exactly-once finalization fails.  The reaper handler
selects its ready run ids in one session and _finalize_runs writes in a
fresh session with no row lock and no re-check of status; when the eager
finalizer commits in between (at time 1), the reaper still rewrites the
already-DONE run (at time 2), committing a second finished_at — so a DONE
run's fields are rewritten and two (f1, avg_latency_ms, finished_at)
triples are committed for one run. -/
theorem finalization_race_double_commit :
    reaperReady raceRunState = true
    ∧ (maybeFinalize 1 raceRunState).status = .done
    ∧ (maybeFinalize 1 raceRunState).finished_at = some 1
    ∧ (maybeFinalize 1 raceRunState).f1 = some (computeMetrics raceRunState.predictions).2
    ∧ (finalizeRuns 2 (maybeFinalize 1 raceRunState)).status = .done
    ∧ (finalizeRuns 2 (maybeFinalize 1 raceRunState)).finished_at = some 2
    ∧ finalizeRuns 2 (maybeFinalize 1 raceRunState) ≠ maybeFinalize 1 raceRunState := by
  have hfin : maybeFinalize 1 raceRunState =
      { raceRunState with
          avg_latency_ms := (computeMetrics raceRunState.predictions).1,
          f1 := some (computeMetrics raceRunState.predictions).2,
          finished_at := some 1, status := .done } := by
    rw [maybeFinalize, if_neg (by decide), if_neg (by decide)]
  refine ⟨by decide, ?_, ?_, ?_, rfl, rfl, ?_⟩
  · rw [hfin]
  · rw [hfin]
  · rw [hfin]
  · intro h
    have := congrArg SysState.finished_at h
    rw [hfin] at this
    simp only [finalizeRuns] at this
    simp only [Option.some.injEq] at this
    norm_num at this

/-- C2: processing a dispatched message whose sample index has no
Prediction row yet inserts exactly one row for that index and increments
samples_processed by one (and samples_success by one exactly when the call
succeeded); re-processing the same message afterwards, with any outcome,
is a complete no-op, so any number of re-deliveries leaves one row and
one increment. -/
theorem process_message_effectively_once :
    ∀ ev m r s, hasIdx s.predictions m.sample_idx = false →
      ((processMessage ev m r s).predictions.filter
          (fun p => p.sample_idx == m.sample_idx)).length = 1
      ∧ (processMessage ev m r s).samples_processed = s.samples_processed + 1
      ∧ (processMessage ev m r s).samples_success
          = s.samples_success + (if (sampleOutcome ev r).ok then 1 else 0)
      ∧ (∀ r2, processMessage ev m r2 (processMessage ev m r s) = processMessage ev m r s) := by
  intro ev m r s h
  have hstep : processMessage ev m r s =
      { s with
        predictions := s.predictions ++ [⟨m.sample_idx, (sampleOutcome ev r).latency_ms,
          (sampleOutcome ev r).ok, m.gold, (sampleOutcome ev r).pred_json⟩]
        samples_processed := s.samples_processed + 1
        samples_success := s.samples_success + (if (sampleOutcome ev r).ok then 1 else 0) } := by
    rw [processMessage, if_neg (by simp [h])]
  have hfilter : s.predictions.filter (fun p => p.sample_idx == m.sample_idx) = [] := by
    rw [List.filter_eq_nil_iff]
    intro p hp
    have hall : ∀ x ∈ s.predictions, ¬x.sample_idx = m.sample_idx := by
      simpa [hasIdx] using h
    simpa using hall p hp
  refine ⟨?_, by rw [hstep], by rw [hstep], ?_⟩
  · rw [hstep]
    simp [List.filter_append, hfilter]
  · intro r2
    rw [processMessage]
    rw [if_pos]
    rw [hstep]
    simp [hasIdx, List.any_append]

/-- Witness for C2 at a fresh run and a failing call. -/
theorem process_message_effectively_once_witness :
    ((processMessage (fun _ => .error ()) ⟨0, "x", []⟩ .exn (initState 0)).predictions.filter
        (fun p => p.sample_idx == 0)).length = 1
    ∧ (processMessage (fun _ => .error ()) ⟨0, "x", []⟩ .exn (initState 0)).samples_processed
        = (initState 0).samples_processed + 1 := by
  have h := process_message_effectively_once (fun _ => .error ()) ⟨0, "x", []⟩ .exn
    (initState 0) rfl
  exact ⟨h.1, h.2.1⟩

/-- C4 counterexample: a non-200 response is recorded with a non-null
latency (the claim says null), and a 200 response whose JSON body has an
unrecognized shape (here the number 5) is recorded as a success — ok true
with the empty span list — not as a failure. -/
theorem worker_failure_recording_cex :
    sampleOutcome (fun _ => .error ()) (.resp 7 500 Option.none)
      = ⟨some 7, false, Option.none⟩
    ∧ sampleOutcome (fun _ => .error ()) (.resp 7 200 (some (.pyint 5)))
      = ⟨some 7, true, some []⟩ := by
  exact ⟨rfl, rfl⟩

/-- C4 amended: when the HTTP call raises, the Prediction row carries
ok false, null pred_json and null latency_ms; when a response arrives,
latency_ms is always recorded — a non-200 status or a 200 body that fails
JSON parsing gives ok false and null pred_json, while a 200 body that
parses as any JSON value gives ok true with the normalized (possibly
empty) span list and also increments samples_success; samples_processed
is incremented in every case. -/
theorem worker_outcome_recording :
    ∀ ev m s, hasIdx s.predictions m.sample_idx = false →
      ∀ lat : ℚ, ∀ status : Nat,
      ((processMessage ev m .exn s).predictions
          = s.predictions ++ [⟨m.sample_idx, Option.none, false, m.gold, Option.none⟩]
        ∧ (processMessage ev m .exn s).samples_success = s.samples_success
        ∧ (processMessage ev m .exn s).samples_processed = s.samples_processed + 1)
      ∧ (∀ body, status ≠ 200 →
          (processMessage ev m (.resp lat status body) s).predictions
            = s.predictions ++ [⟨m.sample_idx, some lat, false, m.gold, Option.none⟩]
          ∧ (processMessage ev m (.resp lat status body) s).samples_success
              = s.samples_success
          ∧ (processMessage ev m (.resp lat status body) s).samples_processed
              = s.samples_processed + 1)
      ∧ ((processMessage ev m (.resp lat 200 Option.none) s).predictions
            = s.predictions ++ [⟨m.sample_idx, some lat, false, m.gold, Option.none⟩]
          ∧ (processMessage ev m (.resp lat 200 Option.none) s).samples_success
              = s.samples_success
          ∧ (processMessage ev m (.resp lat 200 Option.none) s).samples_processed
              = s.samples_processed + 1)
      ∧ (∀ v, (processMessage ev m (.resp lat 200 (some v)) s).predictions
            = s.predictions ++ [⟨m.sample_idx, some lat, true, m.gold,
                some (normalizeSpans ev v)⟩]
          ∧ (processMessage ev m (.resp lat 200 (some v)) s).samples_success
              = s.samples_success + 1
          ∧ (processMessage ev m (.resp lat 200 (some v)) s).samples_processed
              = s.samples_processed + 1) := by
  intro ev m s h lat status
  have hstep : ∀ r : HttpResult, processMessage ev m r s =
      { s with
        predictions := s.predictions ++ [⟨m.sample_idx, (sampleOutcome ev r).latency_ms,
          (sampleOutcome ev r).ok, m.gold, (sampleOutcome ev r).pred_json⟩]
        samples_processed := s.samples_processed + 1
        samples_success := s.samples_success + (if (sampleOutcome ev r).ok then 1 else 0) } := by
    intro r
    rw [processMessage, if_neg (by simp [h])]
  refine ⟨?_, ?_, ?_, ?_⟩
  · rw [hstep]
    exact ⟨rfl, by simp [sampleOutcome], rfl⟩
  · intro body hs
    rw [hstep]
    refine ⟨?_, ?_, rfl⟩ <;> simp [sampleOutcome, hs]
  · rw [hstep]
    exact ⟨rfl, by simp [sampleOutcome], rfl⟩
  · intro v
    rw [hstep]
    exact ⟨rfl, by simp [sampleOutcome], rfl⟩

/-- Witness for C4 at a fresh run: a non-200 response and a 200 response
with an unrecognized body. -/
theorem worker_outcome_recording_witness :
    (processMessage (fun _ => .error ()) ⟨0, "x", []⟩
        (.resp 7 500 Option.none) (initState 0)).predictions
      = (initState 0).predictions ++ [⟨0, some 7, false, [], Option.none⟩]
    ∧ (processMessage (fun _ => .error ()) ⟨0, "x", []⟩
        (.resp 7 200 (some (.pyint 5))) (initState 0)).samples_success
      = (initState 0).samples_success + 1 := by
  have h := worker_outcome_recording (fun _ => .error ()) ⟨0, "x", []⟩ (initState 0)
    rfl 7 500
  exact ⟨(h.2.1 Option.none (by decide)).1, (h.2.2.2 (.pyint 5)).2.1⟩

/-- A list of distinct naturals all below n has length at most n. -/
theorem length_le_of_nodup_lt {l : List Nat} {n : Nat} (hnd : l.Nodup)
    (hlt : ∀ x ∈ l, x < n) : l.length ≤ n := by
  have hsub : l.toFinset ⊆ Finset.range n := fun x hx =>
    Finset.mem_range.mpr (hlt x (List.mem_toFinset.mp hx))
  have hc := Finset.card_le_card hsub
  rwa [List.toFinset_card_of_nodup hnd, Finset.card_range] at hc

/-- The inductive invariant of the pipeline: Prediction rows carry distinct
sample indices, every recorded or queued index was emitted by the
publisher, the counters mirror the Prediction rows, and samples_total is
only ever set — once the publisher has returned — to the number of
messages it enqueued. -/
def Inv (s : SysState) : Prop :=
  (s.predictions.map (fun p => p.sample_idx)).Nodup
  ∧ (∀ p ∈ s.predictions, p.sample_idx < s.published)
  ∧ (∀ m ∈ s.queue, m.sample_idx < s.published)
  ∧ s.samples_processed = s.predictions.length
  ∧ s.samples_success = (s.predictions.filter (fun p => p.ok)).length
  ∧ (s.samples_total ≠ 0 → s.pubDone = true ∧ s.samples_total = s.published)

theorem inv_init (t0 : ℚ) : Inv (initState t0) := by
  refine ⟨by simp [initState], ?_, ?_, rfl, rfl, ?_⟩ <;> simp [initState]

theorem inv_step (ev : String → Except Unit PyVal) (a : Action) (s : SysState)
    (hI : Inv s) : Inv (stepAct ev a s) := by
  obtain ⟨hnd, hplt, hqlt, hproc, hsucc, htot⟩ := hI
  cases a with
  | enqueue sample g =>
      simp only [stepAct, enqueueStep]
      split
      · exact ⟨hnd, hplt, hqlt, hproc, hsucc, htot⟩
      · rename_i hpd
        refine ⟨hnd, fun p hp => Nat.lt_succ_of_lt (hplt p hp), ?_, hproc, hsucc, ?_⟩
        · intro m hm
          rcases List.mem_append.mp hm with hm | hm
          · exact Nat.lt_succ_of_lt (hqlt m hm)
          · simp only [List.mem_singleton] at hm
            subst hm
            exact Nat.lt_succ_self _
        · intro ht
          exact absurd (htot ht).1 (by simpa using hpd)
  | publishOk =>
      simp only [stepAct, publishOkStep]
      split
      · exact ⟨hnd, hplt, hqlt, hproc, hsucc, htot⟩
      · exact ⟨hnd, hplt, hqlt, hproc, hsucc, fun _ => ⟨rfl, rfl⟩⟩
  | publishFail =>
      simp only [stepAct, publishFailStep]
      split
      · exact ⟨hnd, hplt, hqlt, hproc, hsucc, htot⟩
      · rename_i hpd
        exact ⟨hnd, hplt, hqlt, hproc, hsucc,
          fun ht => absurd (htot ht).1 (by simpa using hpd)⟩
  | worker m r =>
      simp only [stepAct]
      split
      · rename_i hmem
        simp only [processMessage]
        split
        · exact ⟨hnd, hplt, hqlt, hproc, hsucc, htot⟩
        · rename_i hdup
          refine ⟨?_, ?_, hqlt, ?_, ?_, htot⟩
          · rw [List.map_append, List.nodup_append]
            refine ⟨hnd, by simp, ?_⟩
            intro x hx hy
            simp only [List.map_cons, List.map_nil, List.mem_singleton] at hy
            subst hy
            rcases List.mem_map.mp hx with ⟨p, hp, hpx⟩
            exact hdup (by simp [hasIdx]; exact ⟨p, hp, by simpa using hpx⟩)
          · intro p hp
            rcases List.mem_append.mp hp with hp | hp
            · exact hplt p hp
            · simp only [List.mem_singleton] at hp
              subst hp
              exact hqlt m hmem
          · simp [hproc]
          · rw [List.filter_append, List.length_append, hsucc]
            by_cases hok : (sampleOutcome ev r).ok <;> simp [hok]
      · exact ⟨hnd, hplt, hqlt, hproc, hsucc, htot⟩
  | eager t =>
      simp only [stepAct, maybeFinalize]
      split
      · exact ⟨hnd, hplt, hqlt, hproc, hsucc, htot⟩
      · split
        · exact ⟨hnd, hplt, hqlt, hproc, hsucc, htot⟩
        · exact ⟨hnd, hplt, hqlt, hproc, hsucc, htot⟩
  | reaper t =>
      simp only [stepAct, reaperStep]
      split
      · exact ⟨hnd, hplt, hqlt, hproc, hsucc, htot⟩
      · exact ⟨hnd, hplt, hqlt, hproc, hsucc, htot⟩

theorem inv_reachable {ev : String → Except Unit PyVal} {s : SysState}
    (h : Reachable ev s) : Inv s := by
  induction h with
  | init t0 => exact inv_init t0
  | step a hs ih => exact inv_step ev a _ ih

/-- C7: in every reachable state whose samples_total has been set, the
counters satisfy samples_success ≤ samples_processed ≤ samples_total, and
no event ever decreases samples_processed or samples_success. -/
theorem counters_bounded_and_monotone :
    ∀ ev s, Reachable ev s →
      (s.samples_total ≠ 0 →
        s.samples_success ≤ s.samples_processed
        ∧ s.samples_processed ≤ s.samples_total)
      ∧ (∀ a, s.samples_processed ≤ (stepAct ev a s).samples_processed
            ∧ s.samples_success ≤ (stepAct ev a s).samples_success) := by
  intro ev s hs
  obtain ⟨hnd, hplt, hqlt, hproc, hsucc, htot⟩ := inv_reachable hs
  constructor
  · intro ht
    constructor
    · rw [hproc, hsucc]
      exact List.length_filter_le _ _
    · rw [hproc, (htot ht).2]
      calc s.predictions.length
          = (s.predictions.map (fun p => p.sample_idx)).length := (List.length_map _ _).symm
        _ ≤ s.published := length_le_of_nodup_lt hnd (fun x hx => by
            rcases List.mem_map.mp hx with ⟨p, hp, hpx⟩
            exact hpx ▸ hplt p hp)
  · intro a
    cases a with
    | enqueue sample g =>
        simp only [stepAct, enqueueStep]
        split <;> exact ⟨le_refl _, le_refl _⟩
    | publishOk =>
        simp only [stepAct, publishOkStep]
        split <;> exact ⟨le_refl _, le_refl _⟩
    | publishFail =>
        simp only [stepAct, publishFailStep]
        split <;> exact ⟨le_refl _, le_refl _⟩
    | worker m r =>
        simp only [stepAct]
        split
        · simp only [processMessage]
          split
          · exact ⟨le_refl _, le_refl _⟩
          · exact ⟨Nat.le_succ _, Nat.le_add_right _ _⟩
        · exact ⟨le_refl _, le_refl _⟩
    | eager t =>
        simp only [stepAct, maybeFinalize]
        split
        · exact ⟨le_refl _, le_refl _⟩
        · split <;> exact ⟨le_refl _, le_refl _⟩
    | reaper t =>
        simp only [stepAct, reaperStep]
        split <;> exact ⟨le_refl _, le_refl _⟩

/-- Witness for C7 at a concrete reachable state with samples_total set:
one message enqueued, processed, and the publisher returned. -/
theorem counters_bounded_and_monotone_witness :
    (publishOkStep (stepAct (fun _ => .error ()) (.worker ⟨0, "x", []⟩ .exn)
        (enqueueStep (fun _ => .error ()) "x" "" (initState 0)))).samples_success
      ≤ (publishOkStep (stepAct (fun _ => .error ()) (.worker ⟨0, "x", []⟩ .exn)
        (enqueueStep (fun _ => .error ()) "x" "" (initState 0)))).samples_processed
    ∧ (publishOkStep (stepAct (fun _ => .error ()) (.worker ⟨0, "x", []⟩ .exn)
        (enqueueStep (fun _ => .error ()) "x" "" (initState 0)))).samples_processed
      ≤ (publishOkStep (stepAct (fun _ => .error ()) (.worker ⟨0, "x", []⟩ .exn)
        (enqueueStep (fun _ => .error ()) "x" "" (initState 0)))).samples_total := by
  have hr : Reachable (fun _ => .error ())
      (publishOkStep (stepAct (fun _ => .error ()) (.worker ⟨0, "x", []⟩ .exn)
        (enqueueStep (fun _ => .error ()) "x" "" (initState 0)))) := by
    have h0 := @Reachable.init (fun _ => .error ()) 0
    have h1 := Reachable.step (.enqueue "x" "") h0
    have h2 := Reachable.step (.worker ⟨0, "x", []⟩ .exn) h1
    exact Reachable.step .publishOk h2
  exact (counters_bounded_and_monotone _ _ hr).1 (by decide)

/-- C8 counterexample: one message is enqueued, a worker processes it (the
endpoint call raises), then the publisher raises on a later batch and
start_run's except branch reverts the run to QUEUED.  When the error is
surfaced the run is QUEUED with samples_total 0 — yet a Prediction row has
already been written, contradicting the claim that a failed dispatch
leaves no Predictions. -/
theorem dispatch_failure_writes_predictions_cex :
    (publishFailStep (stepAct (fun _ => .error ()) (.worker ⟨0, "x", []⟩ .exn)
        (enqueueStep (fun _ => .error ()) "x" "" (initState 0)))).status = .queued
    ∧ (publishFailStep (stepAct (fun _ => .error ()) (.worker ⟨0, "x", []⟩ .exn)
        (enqueueStep (fun _ => .error ()) "x" "" (initState 0)))).samples_total = 0
    ∧ (publishFailStep (stepAct (fun _ => .error ()) (.worker ⟨0, "x", []⟩ .exn)
        (enqueueStep (fun _ => .error ()) "x" "" (initState 0)))).predictions
      = [⟨0, Option.none, false, [], Option.none⟩] := by
  refine ⟨by decide, by decide, by decide⟩

/-- C8 amended: when the publisher raises, start_run reverts the run to
QUEUED, leaves samples_total untouched (still 0: in any reachable state a
non-zero samples_total implies the publisher returned successfully, and it
then equals the number of messages enqueued) and writes no Prediction row
itself — but messages enqueued before the failure may already have been
processed by workers, so Prediction rows can exist; on success,
samples_total is set to exactly the number of messages enqueued, only
after all of them have been enqueued. -/
theorem dispatch_failure_behavior :
    ∀ ev s, (s.pubDone = false →
        (publishFailStep s).status = .queued
        ∧ (publishFailStep s).samples_total = s.samples_total
        ∧ (publishFailStep s).predictions = s.predictions
        ∧ (publishOkStep s).samples_total = s.published
        ∧ (publishOkStep s).predictions = s.predictions)
      ∧ (Reachable ev s → s.samples_total ≠ 0 →
          s.pubDone = true ∧ s.samples_total = s.published) := by
  intro ev s
  constructor
  · intro h
    have hf : publishFailStep s = { s with pubDone := true, status := .queued } := by
      rw [publishFailStep, if_neg (by simp [h])]
    have ho : publishOkStep s = { s with pubDone := true, samples_total := s.published } := by
      rw [publishOkStep, if_neg (by simp [h])]
    rw [hf, ho]
    exact ⟨rfl, rfl, rfl, rfl, rfl⟩
  · intro hr ht
    exact (inv_reachable hr).2.2.2.2.2 ht

/-- Witness for C8's amended statement: the failure path at a state with
one message enqueued, and the total-only-after-publish part at the
reachable state following a successful publish. -/
theorem dispatch_failure_behavior_witness :
    (publishFailStep (enqueueStep (fun _ => .error ()) "x" "" (initState 0))).status = .queued
    ∧ (publishOkStep (enqueueStep (fun _ => .error ()) "x" "" (initState 0))).samples_total
        = (enqueueStep (fun _ => .error ()) "x" "" (initState 0)).published
    ∧ (publishOkStep (enqueueStep (fun _ => .error ()) "x" "" (initState 0))).pubDone = true := by
  have h1 := (dispatch_failure_behavior (fun _ => .error ())
    (enqueueStep (fun _ => .error ()) "x" "" (initState 0))).1 (by decide)
  have hr : Reachable (fun _ => .error ())
      (publishOkStep (enqueueStep (fun _ => .error ()) "x" "" (initState 0))) := by
    have h0 := @Reachable.init (fun _ => .error ()) 0
    have he := Reachable.step (.enqueue "x" "") h0
    exact Reachable.step .publishOk he
  have h2 := (dispatch_failure_behavior (fun _ => .error ())
    (publishOkStep (enqueueStep (fun _ => .error ()) "x" "" (initState 0)))).2 hr (by decide)
  exact ⟨h1.1, h1.2.2.2.1, h2.1⟩

theorem beats_irrefl (a : RunRow) : ¬beats a a := by
  simp [beats]

theorem beats_asymm {a b : RunRow} (h : beats a b) : ¬beats b a := by
  rcases h with h | ⟨he, hl⟩ <;> rintro (h2 | ⟨h2e, h2l⟩) <;>
    first
      | exact absurd h2 (not_lt.mpr (le_of_lt h))
      | exact absurd h (by simp [h2e])
      | exact absurd h2 (by simp [he])
      | exact absurd h2l (not_lt.mpr (le_of_lt hl))

theorem beats_trans {a b c : RunRow} (h1 : beats a b) (h2 : beats b c) : beats a c := by
  rcases h1 with h1 | ⟨h1e, h1l⟩ <;> rcases h2 with h2 | ⟨h2e, h2l⟩
  · exact Or.inl (lt_trans h2 h1)
  · exact Or.inl (h2e ▸ h1)
  · exact Or.inl (h1e.symm ▸ h2)
  · exact Or.inr ⟨h1e.trans h2e, lt_trans h1l h2l⟩

theorem not_beats_pick_left (r b : RunRow) : ¬beats r (pick r b) := by
  unfold pick
  split
  · rename_i h
    exact beats_asymm h
  · exact beats_irrefl r

theorem not_beats_pick_right (r b : RunRow) : ¬beats b (pick r b) := by
  unfold pick
  split
  · exact beats_irrefl b
  · rename_i h
    exact h

/-- Folding pick only ever improves the incumbent. -/
theorem foldl_pick_improves : ∀ (bs : List RunRow) (acc : RunRow),
    bs.foldl pick acc = acc ∨ beats (bs.foldl pick acc) acc := by
  intro bs
  induction bs with
  | nil => intro acc; exact Or.inl rfl
  | cons b bs ih =>
      intro acc
      simp only [List.foldl_cons]
      rcases ih (pick acc b) with h | h
      · rw [h]
        unfold pick
        split
        · rename_i hb
          exact Or.inr hb
        · exact Or.inl rfl
      · by_cases hb : beats b acc
        · have hpick : pick acc b = b := if_pos hb
          nth_rewrite 2 [hpick] at h
          exact Or.inr (beats_trans h hb)
        · have hpick : pick acc b = acc := if_neg hb
          nth_rewrite 2 [hpick] at h
          exact Or.inr h

theorem not_beats_foldl {x : RunRow} (bs : List RunRow) (acc : RunRow)
    (hx : ¬beats x acc) : ¬beats x (bs.foldl pick acc) := by
  intro hcon
  rcases foldl_pick_improves bs acc with h | h
  · exact hx (h ▸ hcon)
  · exact hx (beats_trans hcon h)

theorem foldl_pick_mem : ∀ (rs : List RunRow) (r : RunRow), rs.foldl pick r ∈ r :: rs := by
  intro rs
  induction rs with
  | nil => intro r; simp
  | cons b bs ih =>
      intro r
      simp only [List.foldl_cons]
      rcases List.mem_cons.mp (ih (pick r b)) with h | h
      · rw [h]
        unfold pick
        split
        · exact List.mem_cons.mpr (Or.inr (List.mem_cons_self _ _))
        · exact List.mem_cons_self _ _
      · exact List.mem_cons.mpr (Or.inr (List.mem_cons.mpr (Or.inr h)))

theorem foldl_pick_opt : ∀ (rs : List RunRow) (r x : RunRow),
    x ∈ r :: rs → ¬beats x (rs.foldl pick r) := by
  intro rs
  induction rs with
  | nil =>
      intro r x hx
      rcases List.mem_cons.mp hx with rfl | hx
      · exact beats_irrefl x
      · cases hx
  | cons b bs ih =>
      intro r x hx
      simp only [List.foldl_cons]
      rcases List.mem_cons.mp hx with rfl | hx
      · exact not_beats_foldl bs (pick x b) (not_beats_pick_left x b)
      · rcases List.mem_cons.mp hx with rfl | hx
        · exact not_beats_foldl bs (pick r x) (not_beats_pick_right r x)
        · exact ih (pick r b) x (List.mem_cons.mpr (Or.inr hx))

/-- Team A: f1 0.8, latency 100. -/
def rowA : RunRow := ⟨"A", 1, .done, some (8/10), some 100⟩

/-- Team B: f1 0.8, latency 50. -/
def rowB : RunRow := ⟨"B", 1, .done, some (8/10), some 50⟩

/-- Team C: f1 0.9, latency 9999. -/
def rowC : RunRow := ⟨"C", 1, .done, some (9/10), some 9999⟩

/-- The three-team example of the ranking claim. -/
def exampleRuns : List RunRow := [rowA, rowB, rowC]

/-- C6: the leaderboard picks, per team, a DONE run of the phase that no
other run of that team beats on (coalesced f1 descending, coalesced
latency ascending), and sorts the representatives by f1 descending, then
latency ascending, then team name ascending; on teams A (f1 0.8, lat
100), B (f1 0.8, lat 50), C (f1 0.9, lat 9999) the order is C, B, A. -/
theorem leaderboard_selection_and_order :
    (∀ pid runs, List.Sorted lbLE (leaderboard pid runs))
    ∧ (∀ rows t r, repFor rows t = some r →
        r ∈ rows.filter (fun x => x.team = t)
        ∧ ∀ x ∈ rows.filter (fun x => x.team = t), ¬beats x r)
    ∧ lbItems 1 exampleRuns = [("C", 9999, 9/10), ("B", 50, 8/10), ("A", 100, 8/10)] := by
  refine ⟨?_, ?_, ?_⟩
  · intro pid runs
    exact List.sorted_insertionSort lbLE _
  · intro rows t r h
    unfold repFor at h
    rcases hfl : rows.filter (fun x => x.team = t) with _ | ⟨r0, rs⟩
    · rw [hfl] at h
      cases h
    · rw [hfl] at h
      injection h with h
      subst h
      constructor
      · rw [hfl]
        exact foldl_pick_mem rs r0
      · intro x hx
        rw [hfl] at hx
        exact foldl_pick_opt rs r0 x hx
  · have hBC : ¬lbLE rowB rowC := by
      rw [lbLE_iff]
      norm_num [f1c, latc, rowB, rowC]
    have hAC : ¬lbLE rowA rowC := by
      rw [lbLE_iff]
      norm_num [f1c, latc, rowA, rowC]
    have hAB : ¬lbLE rowA rowB := by
      rw [lbLE_iff]
      norm_num [f1c, latc, rowA, rowB]
    have hsort : List.insertionSort lbLE [rowA, rowB, rowC] = [rowC, rowB, rowA] := by
      simp [List.insertionSort, List.orderedInsert, hBC, hAC, hAB]
    calc lbItems 1 exampleRuns
        = (List.insertionSort lbLE [rowA, rowB, rowC]).map
            (fun r => (r.team, r.avg_latency_ms.getD 0, r.f1.getD 0)) := rfl
      _ = [rowC, rowB, rowA].map
            (fun r => (r.team, r.avg_latency_ms.getD 0, r.f1.getD 0)) := by rw [hsort]
      _ = [("C", 9999, 9/10), ("B", 50, 8/10), ("A", 100, 8/10)] := rfl

/-- Witness for C6: the representative of team A among the example rows is
rowA itself, unbeaten within its team. -/
theorem leaderboard_selection_and_order_witness :
    rowA ∈ exampleRuns.filter (fun x => x.team = "A")
    ∧ ∀ x ∈ exampleRuns.filter (fun x => x.team = "A"), ¬beats x rowA := by
  exact leaderboard_selection_and_order.2.1 exampleRuns "A" rowA rfl

end Hack
